/-
Verification of the core of the Fast_api_with_mongo repository:
the orjson-backed serializer (src/common/serializers/orjson_serializer.py),
the MongoDB CRUD repository (src/database/repositories/crud.py),
the Redis cache client (src/common/cache/redis.py), and the user
service / DTO pipeline (src/services/user.py, src/api/dto/user.py).

Each Python component is shallowly embedded as executable Lean
definitions; the store-facing calls (pymongo / redis commands) are
modelled by explicit state passing over a collection state, and
exceptions by `Except` / fault parameters.
-/
import Mathlib

namespace FastApiMongo

/-! ## The serializer (src/common/serializers/orjson_serializer.py)

`OrjsonSerializer.dumps` delegates to `orjson.dumps`, `loads` to
`orjson.loads`.  The values orjson accepts are JSON-native values
(null, bools, ints, floats, strings, lists, string-keyed dicts) plus
types it encodes through a textual form, notably `datetime` objects,
which it renders as an ISO-8601 string.  The model below covers that
domain with exact integers (floats, being floating point, are outside
the model) and carries bytes as `List Char`.  A datetime value is
identified by the ISO-8601 text orjson renders it as. -/

inductive Json where
| null
| bool (b : Bool)
| int (n : Int)
| str (s : List Char)
| arr (xs : List Json)
| obj (ms : List (List Char × Json))
| datetime (iso : List Char)

/-- The decimal digit character for `n < 10`. -/
def digitChar (n : Nat) : Char := Char.ofNat (48 + n)

/-- Decimal digits of `n`, most significant first. -/
def natChars (n : Nat) : List Char :=
  if n < 10 then [digitChar n]
  else natChars (n / 10) ++ [digitChar (n % 10)]
termination_by n
decreasing_by exact Nat.div_lt_self (by omega) (by omega)

/-- An integer as orjson prints it: optional minus sign, then digits. -/
def intChars (i : Int) : List Char :=
  if i < 0 then '-' :: natChars i.natAbs else natChars i.natAbs

/-- Lower-case hex digit for `n < 16`. -/
def hexDigit (n : Nat) : Char :=
  if n < 10 then Char.ofNat (48 + n) else Char.ofNat (87 + n)

/-- JSON escaping of one character, as orjson emits it: the two
mandatory escapes, the short control escapes, and `\u00XX` for the
remaining control characters; everything else passes through. -/
def escChar (c : Char) : List Char :=
  if c = '"' then ['\\', '"']
  else if c = '\\' then ['\\', '\\']
  else if c = '\n' then ['\\', 'n']
  else if c = '\t' then ['\\', 't']
  else if c = '\r' then ['\\', 'r']
  else if c = '\x08' then ['\\', 'b']
  else if c = '\x0c' then ['\\', 'f']
  else if c.toNat < 32 then
    ['\\', 'u', '0', '0', hexDigit (c.toNat / 16), hexDigit (c.toNat % 16)]
  else [c]

/-- The escaped body of a JSON string. -/
def escBody (s : List Char) : List Char := s.flatMap escChar

mutual

/-- Compact orjson rendering (no whitespace) of one value; a datetime
renders as its ISO-8601 text in string position. -/
def renderVal : Json → List Char
| .null => "null".toList
| .bool true => "true".toList
| .bool false => "false".toList
| .int n => intChars n
| .str s => '"' :: (escBody s ++ ['"'])
| .datetime iso => '"' :: (escBody iso ++ ['"'])
| .arr xs => '[' :: (renderItems xs ++ [']'])
| .obj ms => '{' :: (renderMems ms ++ ['}'])

/-- Array elements, comma separated. -/
def renderItems : List Json → List Char
| [] => []
| x :: xs => renderVal x ++ renderSep xs

/-- The remaining array elements, each preceded by a comma. -/
def renderSep : List Json → List Char
| [] => []
| x :: xs => ',' :: (renderVal x ++ renderSep xs)

/-- Object members, comma separated. -/
def renderMems : List (List Char × Json) → List Char
| [] => []
| (k, v) :: ms => ('"' :: (escBody k ++ ['"'])) ++ ':' :: (renderVal v ++ renderMemSep ms)

/-- The remaining object members, each preceded by a comma. -/
def renderMemSep : List (List Char × Json) → List Char
| [] => []
| (k, v) :: ms =>
    ',' :: (('"' :: (escBody k ++ ['"'])) ++ ':' :: (renderVal v ++ renderMemSep ms))

end

/-- Serializer entry `OrjsonSerializer.dumps`: serialize a value to JSON bytes
(modelled as characters). -/
def OrjsonSerializer.dumps (v : Json) : List Char := renderVal v

/-! ### The decoder side of the serializer

`orjson.loads` parses strict JSON and rejects trailing data.  The
parser below covers the grammar `dumps` emits (compact JSON with
integer numbers); it is total by recursion on a fuel count, which the
entry point sets above the input length. -/

def isDig (c : Char) : Bool := 48 ≤ c.toNat && c.toNat ≤ 57

/-- The value of one hex digit, if `c` is one. -/
def hexVal (c : Char) : Option Nat :=
  if 48 ≤ c.toNat && c.toNat ≤ 57 then some (c.toNat - 48)
  else if 97 ≤ c.toNat && c.toNat ≤ 102 then some (c.toNat - 87)
  else if 65 ≤ c.toNat && c.toNat ≤ 70 then some (c.toNat - 55)
  else none

/-- The character a short escape stands for. -/
def unescChar (c : Char) : Option Char :=
  if c = '"' then some '"'
  else if c = '\\' then some '\\'
  else if c = '/' then some '/'
  else if c = 'n' then some '\n'
  else if c = 't' then some '\t'
  else if c = 'r' then some '\r'
  else if c = 'b' then some '\x08'
  else if c = 'f' then some '\x0c'
  else none

/-- Parse a string body up to the closing quote, undoing escapes. -/
def parseStrBody : List Char → Option (List Char × List Char)
| [] => none
| c :: rest =>
  if c = '"' then some ([], rest)
  else if c = '\\' then
    match rest with
    | [] => none
    | e :: rest2 =>
      if e = 'u' then
        match rest2 with
        | a :: b :: c2 :: d :: rest3 =>
          match hexVal a, hexVal b, hexVal c2, hexVal d with
          | some va, some vb, some vc, some vd =>
            (parseStrBody rest3).map
              (fun p => (Char.ofNat (((va * 16 + vb) * 16 + vc) * 16 + vd) :: p.1, p.2))
          | _, _, _, _ => none
        | _ => none
      else
        match unescChar e with
        | some ch => (parseStrBody rest2).map (fun p => (ch :: p.1, p.2))
        | none => none
  else (parseStrBody rest).map (fun p => (c :: p.1, p.2))

/-- Accumulate a run of decimal digits. -/
def grabDigits : List Char → Nat → Nat × List Char
| c :: cs, acc => if isDig c then grabDigits cs (acc * 10 + (c.toNat - 48)) else (acc, c :: cs)
| [], acc => (acc, [])

/-- Parse an integer literal: optional minus sign, then at least one digit. -/
def parseIntFrom : List Char → Option (Int × List Char)
| [] => none
| c :: rest =>
  if c = '-' then
    match rest with
    | [] => none
    | d :: _ =>
      if isDig d then
        let p := grabDigits rest 0
        some (-(p.1 : Int), p.2)
      else none
  else if isDig c then
    let p := grabDigits (c :: rest) 0
    some ((p.1 : Int), p.2)
  else none

mutual

/-- Parse one JSON value (fuelled; fuel is spent on nesting). -/
def parseVal : Nat → List Char → Option (Json × List Char)
| 0, _ => none
| fuel + 1, cs =>
  match cs with
  | [] => none
  | c :: rest =>
    if c = 'n' then
      match rest with
      | 'u' :: 'l' :: 'l' :: r => some (.null, r)
      | _ => none
    else if c = 't' then
      match rest with
      | 'r' :: 'u' :: 'e' :: r => some (.bool true, r)
      | _ => none
    else if c = 'f' then
      match rest with
      | 'a' :: 'l' :: 's' :: 'e' :: r => some (.bool false, r)
      | _ => none
    else if c = '"' then
      (parseStrBody rest).map (fun p => (.str p.1, p.2))
    else if c = '[' then
      match rest with
      | [] => none
      | c2 :: r2 =>
        if c2 = ']' then some (.arr [], r2)
        else (parseItems fuel (c2 :: r2)).map (fun p => (.arr p.1, p.2))
    else if c = '{' then
      match rest with
      | [] => none
      | c2 :: r2 =>
        if c2 = '}' then some (.obj [], r2)
        else (parseMems fuel (c2 :: r2)).map (fun p => (.obj p.1, p.2))
    else
      (parseIntFrom (c :: rest)).map (fun p => (.int p.1, p.2))

/-- Parse one or more comma-separated array elements and the closing bracket. -/
def parseItems : Nat → List Char → Option (List Json × List Char)
| 0, _ => none
| fuel + 1, cs =>
  match parseVal fuel cs with
  | none => none
  | some (v, r) =>
    match r with
    | [] => none
    | c2 :: r2 =>
      if c2 = ',' then (parseItems fuel r2).map (fun p => (v :: p.1, p.2))
      else if c2 = ']' then some ([v], r2)
      else none

/-- Parse one or more comma-separated object members and the closing brace. -/
def parseMems : Nat → List Char → Option (List (List Char × Json) × List Char)
| 0, _ => none
| fuel + 1, cs =>
  match cs with
  | '"' :: r =>
    match parseStrBody r with
    | none => none
    | some (k, r1) =>
      match r1 with
      | ':' :: r2 =>
        match parseVal fuel r2 with
        | none => none
        | some (v, r3) =>
          match r3 with
          | [] => none
          | c4 :: r4 =>
            if c4 = ',' then (parseMems fuel r4).map (fun p => ((k, v) :: p.1, p.2))
            else if c4 = '}' then some ([(k, v)], r4)
            else none
      | _ => none
  | _ => none

end

/-- Deserializer entry `OrjsonSerializer.loads`: deserialize JSON bytes; invalid input or
trailing data raises in the source, modelled as `none`. -/
def OrjsonSerializer.loads (data : List Char) : Option Json :=
  match parseVal (data.length + 1) data with
  | some (v, []) => some v
  | _ => none

/-! ### Round-trip infrastructure -/

mutual

/-- Node count of a value, used as a fuel bound for the parser. -/
def sizeJ : Json → Nat
| .null => 1
| .bool _ => 1
| .int _ => 1
| .str _ => 1
| .datetime _ => 1
| .arr xs => 1 + sizeL xs
| .obj ms => 1 + sizeM ms

/-- Node count of an element list. -/
def sizeL : List Json → Nat
| [] => 0
| x :: xs => 1 + sizeJ x + sizeL xs

/-- Node count of a member list. -/
def sizeM : List (List Char × Json) → Nat
| [] => 0
| (_, v) :: ms => 1 + sizeJ v + sizeM ms

end

mutual

/-- A value free of datetimes, i.e. with an exact JSON representation. -/
def noDT : Json → Bool
| .null => true
| .bool _ => true
| .int _ => true
| .str _ => true
| .datetime _ => false
| .arr xs => noDTL xs
| .obj ms => noDTM ms

/-- All elements free of datetimes. -/
def noDTL : List Json → Bool
| [] => true
| x :: xs => noDT x && noDTL xs

/-- All member values free of datetimes. -/
def noDTM : List (List Char × Json) → Bool
| [] => true
| (_, v) :: ms => noDT v && noDTM ms

end

/-- An input that cannot extend a digit run: empty or headed by a non-digit. -/
def digFree : List Char → Bool
| [] => true
| c :: _ => !isDig c

/-! ## The document store model (src/database/repositories/crud.py)

`MongoDBCRUDRepository` issues pymongo/motor commands against one
collection.  The collection is modelled as a list of documents in
natural (insertion) order plus a counter for fresh ObjectIds; each
awaited store command becomes a state-passing function.  Query
semantics are store-defined; the model fixes them to the basic
field-equality / `$in` matching that the callers of the repository use. -/

inductive BsonValue where
| oid (n : Nat)
| str (s : String)
| int (n : Int)
| bool (b : Bool)
| null
deriving DecidableEq

/-- A stored document: field name to value, in field order. -/
abbrev Doc := List (String × BsonValue)

/-- Python truthiness of `result.inserted_id`. -/
def truthy : BsonValue → Bool
| .oid _ => true
| .str s => s != ""
| .int n => n != 0
| .bool b => b
| .null => false

/-- Python `str(x)` on an identifier value.  The textual form of an ObjectId is its
hex digest; the model renders the surrogate id number instead (any
injective rendering serves). -/
def pyStr : BsonValue → String
| .oid n => toString n
| .str s => s
| .int n => toString n
| .bool b => if b then "True" else "False"
| .null => "None"

/-- Match criterion for one field: equality or `$in` membership. -/
inductive Cond where
| eqv (v : BsonValue)
| inSet (vs : List BsonValue)
deriving DecidableEq

abbrev Query := List (String × Cond)

/-- Whether one criterion holds of a field of the document. -/
def condHolds (d : Doc) (k : String) : Cond → Bool
| .eqv v => d.lookup k == some v
| .inSet vs =>
  match d.lookup k with
  | some w => vs.contains w
  | none => false

/-- A document matches a query when every criterion holds. -/
def qmatches (q : Query) (d : Doc) : Bool := q.all (fun kc => condHolds d kc.1 kc.2)

/-- The collection state: stored documents in natural order, and the
next fresh ObjectId. -/
structure MongoState where
  docs : List Doc
  nextId : Nat
deriving DecidableEq

/-- Result object of `insert_one`. -/
structure InsertOneResult where
  inserted_id : BsonValue
deriving DecidableEq

namespace Collection

/-- Store command `insert_one`: append the document; a missing `_id` gets a fresh
ObjectId (duplicate user-supplied ids are outside the model). -/
def insert_one (values : Doc) (st : MongoState) : InsertOneResult × MongoState :=
  match values.lookup "_id" with
  | some v => (⟨v⟩, { docs := st.docs ++ [values], nextId := st.nextId + 1 })
  | none =>
    (⟨.oid st.nextId⟩,
     { docs := st.docs ++ [values ++ [("_id", .oid st.nextId)]], nextId := st.nextId + 1 })

/-- Store command `find_one`: first matching document in natural order. -/
def find_one (q : Query) (st : MongoState) : Option Doc :=
  st.docs.find? (qmatches q)

/-- Store command `find` with optional `skip` and `limit` applied to the cursor. -/
def find (q : Query) (off lim : Option Nat) (st : MongoState) : List Doc :=
  let cur := st.docs.filter (qmatches q)
  let cur2 := match off with | none => cur | some o => cur.drop o
  match lim with | none => cur2 | some l => cur2.take l

/-- Mongo `$set` of one field: overwrite it in place, or append it. -/
def applySetField (d : Doc) (k : String) (v : BsonValue) : Doc :=
  if (d.lookup k).isSome then d.map (fun p => if p.1 = k then (k, v) else p)
  else d ++ [(k, v)]

/-- Mongo `$set`: merge exactly the fields of the patch into the document. -/
def applySet (u : Doc) (d : Doc) : Doc :=
  u.foldl (fun acc kv => applySetField acc kv.1 kv.2) d

/-- Store command `update_one` on the document list: `$set` into the first match;
the returned count is of documents actually modified. -/
def update_one_docs (q : Query) (u : Doc) : List Doc → List Doc × Nat
| [] => ([], 0)
| d :: ds =>
  if qmatches q d then
    (applySet u d :: ds, if applySet u d = d then 0 else 1)
  else
    let r := update_one_docs q u ds
    (d :: r.1, r.2)

/-- Store command `update_one` against the collection. -/
def update_one (q : Query) (u : Doc) (st : MongoState) : Nat × MongoState :=
  let r := update_one_docs q u st.docs
  (r.2, { st with docs := r.1 })

/-- Store command `update_many`: `$set` into every match; `modified_count` counts the
documents the patch actually changed. -/
def update_many (q : Query) (u : Doc) (st : MongoState) : Nat × MongoState :=
  (st.docs.countP (fun d => qmatches q d && (applySet u d != d)),
   { st with docs := st.docs.map (fun d => if qmatches q d then applySet u d else d) })

/-- Store command `delete_many`: remove every match, counting them. -/
def delete_many (q : Query) (st : MongoState) : Nat × MongoState :=
  ((st.docs.filter (qmatches q)).length,
   { st with docs := st.docs.filter (fun d => !qmatches q d) })

end Collection

/-- The line `document["_id"] = str(document["_id"])`: replace the identifier
field value by its string form, in place (documents read from the
store always carry `_id`, so the subscript read never fails). -/
def stringifyId (d : Doc) : Doc :=
  d.map (fun p => if p.1 = "_id" then ("_id", BsonValue.str (pyStr p.2)) else p)

namespace MongoDBCRUDRepository

/-- Repository `select`: `find_one`, then stringify the identifier.  The Python
`if document:` also treats an empty document as absent. -/
def select (q : Query) (st : MongoState) : Option Doc :=
  match Collection.find_one q st with
  | some d => if d.isEmpty then none else some (stringifyId d)
  | none => none

/-- The error raised by `create` when the re-read returns `None` and
`document["_id"]` subscripts it. -/
inductive PyError where
| typeError
deriving DecidableEq

/-- Repository `create`: insert, and when the insert reports a truthy id, re-read
by that id and stringify its identifier (again; `select` already did);
a `None` re-read is subscripted unguarded and raises.  A falsy reported
id returns `None` (the insert has still happened). -/
def create (values : Doc) (st : MongoState) : Except PyError (Option Doc × MongoState) :=
  let r := Collection.insert_one values st
  if truthy r.1.inserted_id then
    match select [("_id", .eqv r.1.inserted_id)] r.2 with
    | some d => .ok (some (stringifyId d), r.2)
    | none => .error .typeError
  else
    .ok (none, r.2)

/-- Repository `create` under a concurrent interleaving: `mid` is the store activity of another caller between the two awaited calls (insert, re-read). -/
def createInterleaved (values : Doc) (mid : MongoState → MongoState) (st : MongoState) :
    Except PyError (Option Doc × MongoState) :=
  let r := Collection.insert_one values st
  let st2 := mid r.2
  if truthy r.1.inserted_id then
    match select [("_id", .eqv r.1.inserted_id)] st2 with
    | some d => .ok (some (stringifyId d), st2)
    | none => .error .typeError
  else
    .ok (none, st2)

/-- Store command `insert_many`: insert in order, collecting the reported ids. -/
def insert_many (data : List Doc) (st : MongoState) : List BsonValue × MongoState :=
  data.foldl (fun acc values =>
    let r := Collection.insert_one values acc.2
    (acc.1 ++ [r.1.inserted_id], r.2)) ([], st)

/-- Repository `select_many`: `find` with skip/limit; identifiers are returned in
store-native form, with no conversion. -/
def select_many (q : Query) (off lim : Option Nat) (st : MongoState) : List Doc :=
  Collection.find q off lim st

/-- Repository `create_many`: bulk insert, then re-select by the set of new ids. -/
def create_many (data : List Doc) (st : MongoState) : List Doc × MongoState :=
  let r := insert_many data st
  (select_many [("_id", .inSet r.1)] none none r.2, r.2)

/-- Repository `update`: `$set` into the first match, then re-run `select` with
the same original query and return that post-update view. -/
def update (q : Query) (u : Doc) (st : MongoState) : Option Doc × MongoState :=
  let r := Collection.update_one q u st
  (select q r.2, r.2)

/-- One item of an `update_many` batch: `item.get("query")` and
`item.get("update")`, each possibly missing. -/
structure BatchItem where
  query : Option Query
  update : Option Doc

/-- Python truthiness of `item.get("query")`: `None` and `{}` are falsy. -/
def truthyQuery : Option Query → Bool
| none => false
| some q => !q.isEmpty

/-- Python truthiness of `item.get("update")`. -/
def truthyPatch : Option Doc → Bool
| none => false
| some u => !u.isEmpty

/-- One iteration of the `update_many` loop: when `item.get("query")`
and `item.get("update")` are both truthy, run the store update and add
its `modified_count`; otherwise skip the item. -/
def updateManyStep (acc : Nat × MongoState) (item : BatchItem) : Nat × MongoState :=
  if truthyQuery item.query && truthyPatch item.update then
    let r := Collection.update_many (item.query.getD []) (item.update.getD []) acc.2
    (acc.1 + r.1, r.2)
  else acc

/-- Repository `update_many`: apply each batch item whose `query` and `update` are
both truthy, summing `modified_count`. -/
def update_many (data : List BatchItem) (st : MongoState) : Nat × MongoState :=
  data.foldl updateManyStep (0, st)

/-- Reference reading of the `update_many` contract, following the
wording of the spec: one merge-patch is applied per batch item, and only items
*missing* their query or their patch are skipped — an item carrying an
empty query or patch is still applied.  Kept separate from
`update_many` (the behaviour of the code) to compare the two. -/
def updateManySpec (data : List BatchItem) (st : MongoState) : Nat × MongoState :=
  data.foldl (fun acc item =>
    match item.query, item.update with
    | some q, some u =>
      let r := Collection.update_many q u acc.2
      (acc.1 + r.1, r.2)
    | _, _ => acc) (0, st)

/-- Repository `delete`: fetch the matching documents first (Mongo does not return
deleted documents), then delete them all; return the snapshot. -/
def delete (q : Query) (st : MongoState) : List Doc × MongoState :=
  let snapshot := select_many q none none st
  let r := Collection.delete_many q st
  (snapshot, r.2)

/-- Repository `delete` under a concurrent interleaving: another caller inserts a
document between the read phase and the delete phase. -/
def deleteInterleaved (q : Query) (values : Doc) (st : MongoState) : List Doc × MongoState :=
  let snapshot := select_many q none none st
  let stMid := (Collection.insert_one values st).2
  let r := Collection.delete_many q stMid
  (snapshot, r.2)

end MongoDBCRUDRepository

/-- The collection is well formed when every stored ObjectId is below
the fresh-id counter (so a fresh id collides with nothing). -/
def MongoState.wf (st : MongoState) : Prop :=
  ∀ d ∈ st.docs, ∀ n, d.lookup "_id" = some (BsonValue.oid n) → n < st.nextId

/-! ## The user DTO / service pipeline
(src/api/dto/user.py, src/database/repositories/user.py,
src/services/user.py) -/

/-- DTO model `UserDTO`: pydantic model with defaulted fields; only `active` and
`freeze` are Optional and can hold `None`. -/
structure UserDTO where
  client_id : String := ""
  crm_url : String := ""
  crm_api_key : String := ""
  module_name : String := ""
  module_code : String := ""
  active : Option Bool := some false
  freeze : Option Bool := some false

/-- pydantic `model_dump(exclude_none=True)`: the fields in declaration
order, excluding exactly those whose value is `None`; the non-optional
string fields are never `None` and always appear, whatever their value. -/
def UserDTO.modelDumpExcludeNone (u : UserDTO) : Doc :=
  [("client_id", .str u.client_id), ("crm_url", .str u.crm_url),
   ("crm_api_key", .str u.crm_api_key), ("module_name", .str u.module_name),
   ("module_code", .str u.module_code)]
  ++ (match u.active with | some b => [("active", .bool b)] | none => [])
  ++ (match u.freeze with | some b => [("freeze", .bool b)] | none => [])

/-- Repository wrapper `UserRepository.create`:
`self._crud.create(**user.model_dump(exclude_none=True))`. -/
def UserRepository.create (user : UserDTO) (st : MongoState) :
    Except MongoDBCRUDRepository.PyError (Option Doc × MongoState) :=
  MongoDBCRUDRepository.create user.modelDumpExcludeNone st

/-- Service method `UserService.create`: delegates to the repository. -/
def UserService.create (user : UserDTO) (st : MongoState) :
    Except MongoDBCRUDRepository.PyError (Option Doc × MongoState) :=
  UserRepository.create user st

/-! ## The cache client (src/common/cache/redis.py)

Each operation runs inside a `try` whose store commands may raise; a
raise is modelled by `fault = some e`.  The cache contents are the key
to stored-bytes pairs; TTL bookkeeping is server-side and outside the
claims verified here. -/

/-- A store-level failure inside a cache operation (connection drop,
timeout, malformed data); the `except Exception` blocks catch these. -/
inductive StoreErr where
| err
deriving DecidableEq

/-- The cache contents: key to stored bytes. -/
abbrev RedisState := List (String × List Char)

namespace RedisCache

/-- Cache `get`: fetch, then deserialize; any raise inside the `try` (the
fetch or `loads`) is logged and becomes `None`. -/
def get (store : RedisState) (fault : Option StoreErr) (key : String) : Option Json :=
  match fault with
  | some _ => none
  | none =>
    match store.lookup key with
    | none => none
    | some data => OrjsonSerializer.loads data

/-- Cache `set`: serialize and store (`setex` when a TTL is given, `set`
otherwise — both write the value); a raise becomes `False`. -/
def set (store : RedisState) (fault : Option StoreErr) (key : String) (value : Json)
    (_ttl : Option Nat) : Bool × RedisState :=
  match fault with
  | some _ => (false, store)
  | none =>
    let data := OrjsonSerializer.dumps value
    (true, (key, data) :: store.filter (fun p => p.1 != key))

/-- Cache `delete`: remove the key, reporting whether anything was removed;
a raise becomes `False`. -/
def delete (store : RedisState) (fault : Option StoreErr) (key : String) : Bool × RedisState :=
  match fault with
  | some _ => (false, store)
  | none => ((store.lookup key).isSome, store.filter (fun p => p.1 != key))

/-- Cache `expire`: returns the server reply (whether the key exists);
a raise becomes `False`. -/
def expire (store : RedisState) (fault : Option StoreErr) (key : String) (_ttl : Nat) : Bool :=
  match fault with
  | some _ => false
  | none => (store.lookup key).isSome

/-- The `get_many` loop over `zip(keys, values)`: skip absent values,
deserialize present ones; a `loads` raise aborts the whole loop. -/
def collectMany : List (String × Option (List Char)) → Option (List (String × Json))
| [] => some []
| (_, none) :: rest => collectMany rest
| (k, some b) :: rest =>
  match OrjsonSerializer.loads b with
  | some v => (collectMany rest).map (fun m => (k, v) :: m)
  | none => none

/-- Cache `get_many`: `mget` the keys and collect the present ones; an empty
key list short-circuits before the `try`; a raise becomes `{}`. -/
def get_many (store : RedisState) (fault : Option StoreErr) (keys : List String) :
    List (String × Json) :=
  if keys.isEmpty then []
  else
    match fault with
    | some _ => []
    | none =>
      match collectMany (keys.map (fun k => (k, store.lookup k))) with
      | some m => m
      | none => []

end RedisCache

theorem sizeJ_pos (v : Json) : 1 ≤ sizeJ v := by
  cases v <;> simp [sizeJ]

theorem digitChar_spec (n : Nat) (h : n < 10) :
    isDig (digitChar n) = true ∧ (digitChar n).toNat - 48 = n := by
  interval_cases n <;> exact ⟨by decide, by decide⟩

theorem isDig_ne_special {c : Char} (h : isDig c = true) :
    c ≠ 'n' ∧ c ≠ 't' ∧ c ≠ 'f' ∧ c ≠ '"' ∧ c ≠ '[' ∧ c ≠ '{' ∧
    c ≠ ']' ∧ c ≠ '}' ∧ c ≠ ',' ∧ c ≠ '-' ∧ c ≠ ':' := by
  refine ⟨?_, ?_, ?_, ?_, ?_, ?_, ?_, ?_, ?_, ?_, ?_⟩ <;>
    (intro hc; subst hc; exact absurd h (by decide))

/-- One unfolding of `natChars`, with the last digit split off. -/
theorem natChars_unfold (n : Nat) :
    natChars n = (if n < 10 then [] else natChars (n / 10)) ++ [digitChar (n % 10)] := by
  rw [natChars]
  by_cases h : n < 10
  · simp [h, Nat.mod_eq_of_lt h]
  · simp [h]

theorem natChars_ne_nil (n : Nat) : natChars n ≠ [] := by
  rw [natChars_unfold]; simp

theorem natChars_digits (n : Nat) : ∀ c ∈ natChars n, isDig c = true := by
  induction n using Nat.strong_induction_on with
  | _ n ih =>
    rw [natChars_unfold]
    intro c hc
    rcases List.mem_append.mp hc with h | h
    · by_cases h10 : n < 10
      · simp [h10] at h
      · exact ih (n / 10) (Nat.div_lt_self (by omega) (by omega)) c (by simpa [h10] using h)
    · rw [List.mem_singleton] at h
      subst h
      exact (digitChar_spec _ (Nat.mod_lt _ (by omega))).1

/-- A digit run is nonempty and headed by a digit. -/
theorem natChars_cons (n : Nat) :
    ∃ c t, natChars n = c :: t ∧ isDig c = true := by
  match h : natChars n with
  | [] => exact absurd h (natChars_ne_nil n)
  | c :: t => exact ⟨c, t, rfl, natChars_digits n c (h ▸ List.mem_cons_self ..)⟩

theorem grabDigits_run (ds : List Char) (hds : ∀ c ∈ ds, isDig c = true) :
    ∀ (rest : List Char) (acc : Nat), digFree rest = true →
    grabDigits (ds ++ rest) acc
      = (ds.foldl (fun a c => a * 10 + (c.toNat - 48)) acc, rest) := by
  induction ds with
  | nil =>
    intro rest acc hr
    cases rest with
    | nil => rfl
    | cons c cs =>
      simp only [digFree, Bool.not_eq_true'] at hr
      simp [grabDigits, hr]
  | cons c t ih =>
    intro rest acc hr
    have hc : isDig c = true := hds c (by simp)
    simp only [List.cons_append, grabDigits, hc, if_pos, List.append_eq, List.foldl_cons]
    rw [ih (fun x hx => hds x (by simp [hx])) rest _ hr]

theorem natChars_foldl (n : Nat) : ∀ acc : Nat,
    (natChars n).foldl (fun a c => a * 10 + (c.toNat - 48)) acc
      = acc * 10 ^ (natChars n).length + n := by
  induction n using Nat.strong_induction_on with
  | _ n ih =>
    intro acc
    rw [natChars_unfold]
    by_cases h : n < 10
    · rw [if_pos h]
      simp only [List.nil_append, List.foldl_cons, List.foldl_nil, List.length_singleton,
        pow_one, Nat.mod_eq_of_lt h, (digitChar_spec n h).2]
    · rw [if_neg h, List.foldl_append, ih (n / 10) (Nat.div_lt_self (by omega) (by omega)) acc]
      simp only [List.length_append, List.length_singleton, List.foldl_cons, List.foldl_nil,
        (digitChar_spec (n % 10) (Nat.mod_lt _ (by omega))).2]
      rw [pow_succ, ← mul_assoc]
      have hmod := Nat.div_add_mod n 10
      generalize acc * 10 ^ (natChars (n / 10)).length = q
      omega

/-- The integer codec round-trip, provided the remainder cannot extend
the digit run. -/
theorem parseIntFrom_intChars (i : Int) (rest : List Char) (hr : digFree rest = true) :
    parseIntFrom (intChars i ++ rest) = some (i, rest) := by
  obtain ⟨c, t, hct, hc⟩ := natChars_cons i.natAbs
  have hgrab : grabDigits (natChars i.natAbs ++ rest) 0 = (i.natAbs, rest) := by
    rw [grabDigits_run _ (natChars_digits _) rest 0 hr, natChars_foldl]
    simp
  have hcons : natChars i.natAbs ++ rest = c :: (t ++ rest) := by simp [hct]
  by_cases hneg : i < 0
  · have harg : intChars i ++ rest = '-' :: (natChars i.natAbs ++ rest) := by
      simp [intChars, hneg]
    rw [harg, hcons]
    simp only [parseIntFrom, if_pos rfl, hc, if_pos]
    rw [← hcons, hgrab]
    simp only [Option.some.injEq, Prod.mk.injEq, and_true]
    omega
  · have harg : intChars i ++ rest = c :: (t ++ rest) := by
      simp [intChars, hneg, hct]
    rw [harg]
    have hnm : ¬(c = '-') := (isDig_ne_special hc).2.2.2.2.2.2.2.2.2.1
    simp only [parseIntFrom, if_neg hnm, hc, if_pos]
    rw [← hcons, hgrab]
    simp only [Option.some.injEq, Prod.mk.injEq, and_true]
    omega

theorem hexDigit_hexVal (n : Nat) (h : n < 16) : hexVal (hexDigit n) = some n := by
  interval_cases n <;> decide

theorem hexVal_zero : hexVal '0' = some 0 := by decide

/-- Parsing one escaped character undoes `escChar`. -/
theorem parseStrBody_esc (c : Char) (t : List Char) :
    parseStrBody (escChar c ++ t) = (parseStrBody t).map (fun p => (c :: p.1, p.2)) := by
  by_cases h1 : c = '"'
  · subst h1
    rw [show escChar '"' ++ t = '\\' :: '"' :: t from rfl, parseStrBody.eq_def]
    simp [unescChar]
  by_cases h2 : c = '\\'
  · subst h2
    rw [show escChar '\\' ++ t = '\\' :: '\\' :: t from rfl, parseStrBody.eq_def]
    simp [unescChar]
  by_cases h3 : c = '\n'
  · subst h3
    rw [show escChar '\n' ++ t = '\\' :: 'n' :: t from rfl, parseStrBody.eq_def]
    simp [unescChar]
  by_cases h4 : c = '\t'
  · subst h4
    rw [show escChar '\t' ++ t = '\\' :: 't' :: t from rfl, parseStrBody.eq_def]
    simp [unescChar]
  by_cases h5 : c = '\r'
  · subst h5
    rw [show escChar '\r' ++ t = '\\' :: 'r' :: t from rfl, parseStrBody.eq_def]
    simp [unescChar]
  by_cases h6 : c = '\x08'
  · subst h6
    rw [show escChar '\x08' ++ t = '\\' :: 'b' :: t from rfl, parseStrBody.eq_def]
    simp [unescChar]
  by_cases h7 : c = '\x0c'
  · subst h7
    rw [show escChar '\x0c' ++ t = '\\' :: 'f' :: t from rfl, parseStrBody.eq_def]
    simp [unescChar]
  by_cases h8 : c.toNat < 32
  · have hesc : escChar c
        = ['\\', 'u', '0', '0', hexDigit (c.toNat / 16), hexDigit (c.toNat % 16)] := by
      simp [escChar, h1, h2, h3, h4, h5, h6, h7, h8]
    rw [hesc, List.cons_append, parseStrBody.eq_def]
    simp only [List.cons_append, List.nil_append,
      hexDigit_hexVal (c.toNat / 16) (by omega), hexDigit_hexVal (c.toNat % 16) (by omega),
      hexVal_zero]
    have hx : Char.ofNat (c.toNat / 16 * 16 + c.toNat % 16) = c := by
      rw [show c.toNat / 16 * 16 + c.toNat % 16 = c.toNat by omega]
      exact Char.ofNat_toNat c
    simp [hx]
  · have hesc : escChar c = [c] := by
      simp [escChar, h1, h2, h3, h4, h5, h6, h7, h8]
    rw [hesc, List.cons_append, List.nil_append, parseStrBody.eq_def]
    simp [h1, h2]

/-- Parsing an escaped body prepends the unescaped characters. -/
theorem parseStrBody_escBody (s : List Char) : ∀ t : List Char,
    parseStrBody (escBody s ++ t) = (parseStrBody t).map (fun p => (s ++ p.1, p.2)) := by
  induction s with
  | nil =>
    intro t
    cases h : parseStrBody t <;> simp [escBody, h]
  | cons c cs ih =>
    intro t
    have hstep : escBody (c :: cs) ++ t = escChar c ++ (escBody cs ++ t) := by
      simp [escBody, List.flatMap_cons, List.append_assoc]
    rw [hstep, parseStrBody_esc, ih]
    cases h : parseStrBody t <;> simp

/-- The string codec round-trip: a rendered body parses back up to its
closing quote. -/
theorem parseStrBody_closed (s rest : List Char) :
    parseStrBody (escBody s ++ '"' :: rest) = some (s, rest) := by
  rw [parseStrBody_escBody, parseStrBody.eq_def]
  simp

theorem digFree_cons {c : Char} (h : isDig c = false) (t : List Char) :
    digFree (c :: t) = true := by
  simp [digFree, h]

/-- Every rendered value starts with a character that closes neither an
array nor an object. -/
theorem renderVal_head (v : Json) :
    ∃ c t, renderVal v = c :: t ∧ c ≠ ']' ∧ c ≠ '}' := by
  cases v with
  | null => exact ⟨'n', _, rfl, by decide, by decide⟩
  | bool b =>
    cases b with
    | false => exact ⟨'f', _, rfl, by decide, by decide⟩
    | true => exact ⟨'t', _, rfl, by decide, by decide⟩
  | int n =>
    by_cases hneg : n < 0
    · refine ⟨'-', natChars n.natAbs, ?_, by decide, by decide⟩
      simp [renderVal, intChars, hneg]
    · obtain ⟨c, t, hct, hc⟩ := natChars_cons n.natAbs
      have hsp := isDig_ne_special hc
      refine ⟨c, t, ?_, hsp.2.2.2.2.2.2.1, hsp.2.2.2.2.2.2.2.1⟩
      simp [renderVal, intChars, hneg, hct]
  | str s => exact ⟨'"', _, rfl, by decide, by decide⟩
  | datetime iso => exact ⟨'"', _, rfl, by decide, by decide⟩
  | arr xs => exact ⟨'[', _, rfl, by decide, by decide⟩
  | obj ms => exact ⟨'{', _, rfl, by decide, by decide⟩

/-- The fallthrough branch of the value parser is the integer parser. -/
theorem parseVal_succ_int (fuel : Nat) (c : Char) (t : List Char)
    (hn : c ≠ 'n') (ht : c ≠ 't') (hf : c ≠ 'f') (hq : c ≠ '"')
    (hbk : c ≠ '[') (hbc : c ≠ '{') :
    parseVal (fuel + 1) (c :: t)
      = (parseIntFrom (c :: t)).map (fun p => (.int p.1, p.2)) := by
  simp only [parseVal]
  simp [hn, ht, hf, hq, hbk, hbc]

mutual

/-- Parsing a rendered datetime-free value recovers it, for any fuel at
least its node count and any remainder that cannot extend a digit run. -/
theorem rt_parseVal : ∀ (v : Json) (fuel : Nat) (rest : List Char),
    noDT v = true → sizeJ v ≤ fuel → digFree rest = true →
    parseVal fuel (renderVal v ++ rest) = some (v, rest)
| v, 0, _, _, hsz, _ => by
  have := sizeJ_pos v
  omega
| .null, fuel + 1, rest, _, _, _ => by
  rw [show renderVal .null ++ rest = 'n' :: 'u' :: 'l' :: 'l' :: rest from by
    simp only [renderVal]
    rfl]
  simp only [parseVal]
  simp
| .bool true, fuel + 1, rest, _, _, _ => by
  rw [show renderVal (.bool true) ++ rest = 't' :: 'r' :: 'u' :: 'e' :: rest from by
    simp only [renderVal]
    rfl]
  simp only [parseVal]
  simp
| .bool false, fuel + 1, rest, _, _, _ => by
  rw [show renderVal (.bool false) ++ rest = 'f' :: 'a' :: 'l' :: 's' :: 'e' :: rest from by
    simp only [renderVal]
    rfl]
  simp only [parseVal]
  simp
| .int n, fuel + 1, rest, _, _, hr => by
  by_cases hneg : n < 0
  · have harg : renderVal (.int n) ++ rest = '-' :: (natChars n.natAbs ++ rest) := by
      simp [renderVal, intChars, hneg]
    rw [harg, parseVal_succ_int fuel '-' _ (by decide) (by decide) (by decide) (by decide)
      (by decide) (by decide), ← harg,
      show renderVal (.int n) = intChars n from by simp [renderVal],
      parseIntFrom_intChars n rest hr]
    rfl
  · obtain ⟨c, t, hct, hc⟩ := natChars_cons n.natAbs
    have hsp := isDig_ne_special hc
    have harg : renderVal (.int n) ++ rest = c :: (t ++ rest) := by
      simp [renderVal, intChars, hneg, hct]
    rw [harg, parseVal_succ_int fuel c _ hsp.1 hsp.2.1 hsp.2.2.1 hsp.2.2.2.1
      hsp.2.2.2.2.1 hsp.2.2.2.2.2.1, ← harg,
      show renderVal (.int n) = intChars n from by simp [renderVal],
      parseIntFrom_intChars n rest hr]
    rfl
| .str s, fuel + 1, rest, _, _, _ => by
  have harg : renderVal (.str s) ++ rest = '"' :: (escBody s ++ '"' :: rest) := by
    simp [renderVal]
  rw [harg]
  simp only [parseVal]
  simp [parseStrBody_closed]
| .datetime iso, _, _, hnd, _, _ => by
  simp [noDT] at hnd
| .arr [], fuel + 1, rest, _, _, _ => by
  rw [show renderVal (.arr []) ++ rest = '[' :: ']' :: rest from by
    simp [renderVal, renderItems]]
  simp only [parseVal]
  simp
| .arr (x :: xs), fuel + 1, rest, hnd, hsz, hr => by
  obtain ⟨c, t, hct, hbr, _⟩ := renderVal_head x
  have hitems : renderItems (x :: xs) ++ ']' :: rest
      = c :: (t ++ (renderSep xs ++ ']' :: rest)) := by
    simp [renderItems, hct, List.append_assoc]
  have harg : renderVal (.arr (x :: xs)) ++ rest
      = '[' :: (c :: (t ++ (renderSep xs ++ ']' :: rest))) := by
    simp [renderVal, ← hitems, List.append_assoc]
  rw [harg]
  simp only [parseVal]
  simp only [noDT] at hnd
  simp only [sizeJ] at hsz
  have hkey := rt_parseItems x xs fuel rest hnd (by omega) hr
  rw [hitems] at hkey
  simp [hbr, hkey]
| .obj [], fuel + 1, rest, _, _, _ => by
  rw [show renderVal (.obj []) ++ rest = '{' :: '}' :: rest from by
    simp [renderVal, renderMems]]
  simp only [parseVal]
  simp
| .obj ((k, v) :: ms), fuel + 1, rest, hnd, hsz, hr => by
  have hmems : renderMems ((k, v) :: ms) ++ '}' :: rest
      = '"' :: (escBody k ++ ('"' :: (':' :: (renderVal v ++ (renderMemSep ms ++ '}' :: rest))))) := by
    simp [renderMems, List.append_assoc]
  have harg : renderVal (.obj ((k, v) :: ms)) ++ rest
      = '{' :: (renderMems ((k, v) :: ms) ++ '}' :: rest) := by
    simp [renderVal, List.append_assoc]
  rw [harg]
  simp only [parseVal]
  simp only [noDT] at hnd
  simp only [sizeJ] at hsz
  have hkey := rt_parseMems k v ms fuel rest hnd (by omega) hr
  rw [hmems] at hkey
  simp [hmems, hkey]

/-- Parsing rendered array elements up to the closing bracket recovers them. -/
theorem rt_parseItems : ∀ (x : Json) (xs : List Json) (fuel : Nat) (rest : List Char),
    noDTL (x :: xs) = true → sizeL (x :: xs) ≤ fuel → digFree rest = true →
    parseItems fuel (renderItems (x :: xs) ++ ']' :: rest) = some (x :: xs, rest)
| x, _, 0, _, _, hsz, _ => by
  have := sizeJ_pos x
  simp only [sizeL] at hsz
  omega
| x, [], fuel + 1, rest, hnd, hsz, hr => by
  simp only [noDTL, Bool.and_eq_true] at hnd
  simp only [sizeL] at hsz
  have harg : renderItems [x] ++ ']' :: rest = renderVal x ++ (']' :: rest) := by
    simp [renderItems, renderSep]
  simp only [parseItems]
  rw [harg,
    rt_parseVal x fuel (']' :: rest) hnd.1 (by omega) (digFree_cons (by decide) rest)]
  simp
| x, y :: ys, fuel + 1, rest, hnd, hsz, hr => by
  simp only [noDTL, Bool.and_eq_true] at hnd
  simp only [sizeL] at hsz
  have harg : renderItems (x :: y :: ys) ++ ']' :: rest
      = renderVal x ++ (',' :: (renderItems (y :: ys) ++ ']' :: rest)) := by
    simp [renderItems, renderSep, List.append_assoc]
  have hkey := rt_parseItems y ys fuel rest (by simp [noDTL, hnd.2.1, hnd.2.2])
    (by simp only [sizeL]; omega) hr
  simp only [parseItems]
  rw [harg,
    rt_parseVal x fuel (',' :: (renderItems (y :: ys) ++ ']' :: rest)) hnd.1 (by omega)
      (digFree_cons (by decide) _)]
  simp [hkey]

/-- Parsing rendered object members up to the closing brace recovers them. -/
theorem rt_parseMems : ∀ (k : List Char) (v : Json) (ms : List (List Char × Json))
    (fuel : Nat) (rest : List Char),
    noDTM ((k, v) :: ms) = true → sizeM ((k, v) :: ms) ≤ fuel → digFree rest = true →
    parseMems fuel (renderMems ((k, v) :: ms) ++ '}' :: rest) = some ((k, v) :: ms, rest)
| _, v, _, 0, _, _, hsz, _ => by
  have := sizeJ_pos v
  simp only [sizeM] at hsz
  omega
| k, v, [], fuel + 1, rest, hnd, hsz, hr => by
  simp only [noDTM, Bool.and_eq_true] at hnd
  simp only [sizeM] at hsz
  have harg : renderMems [(k, v)] ++ '}' :: rest
      = '"' :: (escBody k ++ ('"' :: (':' :: (renderVal v ++ ('}' :: rest))))) := by
    simp [renderMems, renderMemSep, List.append_assoc]
  simp only [parseMems]
  rw [harg]
  have hval := rt_parseVal v fuel ('}' :: rest) hnd.1 (by omega)
    (digFree_cons (by decide) rest)
  have hstr := parseStrBody_closed k (':' :: (renderVal v ++ ('}' :: rest)))
  simp [hstr, hval]
| k, v, (k2, v2) :: ms2, fuel + 1, rest, hnd, hsz, hr => by
  simp only [noDTM, Bool.and_eq_true] at hnd
  simp only [sizeM] at hsz
  have harg : renderMems ((k, v) :: (k2, v2) :: ms2) ++ '}' :: rest
      = '"' :: (escBody k ++ ('"' :: (':' :: (renderVal v
          ++ (',' :: (renderMems ((k2, v2) :: ms2) ++ '}' :: rest)))))) := by
    simp [renderMems, renderMemSep, List.append_assoc]
  simp only [parseMems]
  rw [harg]
  have hval := rt_parseVal v fuel
    (',' :: (renderMems ((k2, v2) :: ms2) ++ '}' :: rest)) hnd.1 (by omega)
    (digFree_cons (by decide) _)
  have hstr := parseStrBody_closed k
    (':' :: (renderVal v ++ (',' :: (renderMems ((k2, v2) :: ms2) ++ '}' :: rest))))
  have hkey := rt_parseMems k2 v2 ms2 fuel rest
    (by simp [noDTM, hnd.2.1, hnd.2.2]) (by simp only [sizeM]; omega) hr
  simp [hstr, hval, hkey]

end

mutual

/-- Node counts never exceed the rendered length. -/
theorem sizeJ_le_render : ∀ v : Json, sizeJ v ≤ (renderVal v).length
| .null => by simp only [sizeJ, renderVal]; decide
| .bool b => by cases b <;> (simp only [sizeJ, renderVal]; decide)
| .int n => by
  obtain ⟨c, t, hct, _⟩ := natChars_cons n.natAbs
  by_cases hneg : n < 0 <;> simp [sizeJ, renderVal, intChars, hneg, hct]
| .str s => by simp [sizeJ, renderVal]
| .datetime iso => by simp [sizeJ, renderVal]
| .arr [] => by simp [sizeJ, sizeL, renderVal, renderItems]
| .arr (x :: xs) => by
  have h := sizeL_le_render x xs
  simp only [sizeJ, renderVal, List.length_cons, List.length_append,
    List.length_singleton]
  omega
| .obj [] => by simp [sizeJ, sizeM, renderVal, renderMems]
| .obj ((k, v) :: ms) => by
  have h := sizeM_le_render k v ms
  simp only [sizeJ, renderVal, List.length_cons, List.length_append,
    List.length_singleton]
  omega
termination_by v => sizeOf v

/-- Element lists: node count is within rendered length plus one. -/
theorem sizeL_le_render : ∀ (x : Json) (xs : List Json),
    sizeL (x :: xs) ≤ (renderItems (x :: xs)).length + 1
| x, [] => by
  have h := sizeJ_le_render x
  simp only [sizeL, renderItems, renderSep, List.append_nil]
  omega
| x, y :: ys => by
  have h := sizeJ_le_render x
  have h2 := sizeL_le_render y ys
  simp only [sizeL, renderItems, renderSep, List.length_append, List.length_cons] at h2 ⊢
  omega
termination_by x xs => 1 + sizeOf x + sizeOf xs

/-- Member lists: node count is within rendered length plus one. -/
theorem sizeM_le_render : ∀ (k : List Char) (v : Json) (ms : List (List Char × Json)),
    sizeM ((k, v) :: ms) ≤ (renderMems ((k, v) :: ms)).length + 1
| k, v, [] => by
  have h := sizeJ_le_render v
  simp only [sizeM, renderMems, renderMemSep, List.append_nil, List.length_append,
    List.length_cons]
  omega
| k, v, (k2, v2) :: ms2 => by
  have h := sizeJ_le_render v
  have h2 := sizeM_le_render k2 v2 ms2
  simp only [sizeM, renderMems, renderMemSep, List.length_append, List.length_cons] at h2 ⊢
  omega
termination_by k v ms => 2 + sizeOf k + sizeOf v + sizeOf ms

end

/-- The serializer round-trip for every datetime-free value. -/
theorem roundtrip_noDT (v : Json) (h : noDT v = true) :
    OrjsonSerializer.loads (OrjsonSerializer.dumps v) = some v := by
  have hle : sizeJ v ≤ (renderVal v).length + 1 :=
    le_trans (sizeJ_le_render v) (by omega)
  have hrt := rt_parseVal v ((renderVal v).length + 1) [] h hle rfl
  rw [List.append_nil] at hrt
  simp only [OrjsonSerializer.loads, OrjsonSerializer.dumps, hrt]

/-- A datetime deserializes back as the plain string of its ISO text,
not as the original value. -/
theorem loads_dumps_datetime (iso : List Char) :
    OrjsonSerializer.loads (OrjsonSerializer.dumps (Json.datetime iso))
      = some (Json.str iso) := by
  have hren : renderVal (Json.datetime iso) = '"' :: (escBody iso ++ '"' :: []) := by
    simp [renderVal]
  have hstr := parseStrBody_closed iso []
  simp only [OrjsonSerializer.loads, OrjsonSerializer.dumps, hren]
  simp only [parseVal]
  simp [hstr]

/-! ### Repository lemmas -/

theorem lookup_append (l1 l2 : Doc) (k : String) :
    (l1 ++ l2).lookup k = (l1.lookup k).or (l2.lookup k) := by
  induction l1 with
  | nil => simp [List.lookup]
  | cons p tl ih =>
    obtain ⟨a, b⟩ := p
    by_cases h : (k == a) = true <;> simp [List.lookup, h, ih]

theorem lookup_eq_none_keys (l : Doc) (k : String) (h : k ∉ l.map Prod.fst) :
    l.lookup k = none := by
  induction l with
  | nil => rfl
  | cons p tl ih =>
    obtain ⟨a, b⟩ := p
    simp only [List.map_cons, List.mem_cons] at h
    push_neg at h
    have : (k == a) = false := by simp [h.1]
    simp [List.lookup, this, ih h.2]

theorem update_one_docs_no_match (q : Query) (u : Doc) :
    ∀ ds : List Doc, (∀ d ∈ ds, qmatches q d = false) →
    Collection.update_one_docs q u ds = (ds, 0) := by
  intro ds
  induction ds with
  | nil => intro _; rfl
  | cons d tl ih =>
    intro h
    have hd := h d (by simp)
    simp [Collection.update_one_docs, hd, ih (fun x hx => h x (by simp [hx]))]

theorem update_one_docs_first (q : Query) (u : Doc) :
    ∀ (ds : List Doc) (i : Nat) (d0 : Doc), ds[i]? = some d0 → qmatches q d0 = true →
    (∀ j d1, j < i → ds[j]? = some d1 → qmatches q d1 = false) →
    Collection.update_one_docs q u ds
      = (ds.set i (Collection.applySet u d0),
         if Collection.applySet u d0 = d0 then 0 else 1) := by
  intro ds
  induction ds with
  | nil => intro i d0 h; simp at h
  | cons d tl ih =>
    intro i d0 hget hmatch hbefore
    cases i with
    | zero =>
      simp only [List.getElem?_cons_zero, Option.some.injEq] at hget
      subst hget
      simp [Collection.update_one_docs, hmatch]
    | succ j =>
      have hd : qmatches q d = false := hbefore 0 d (by omega) (by simp)
      simp only [List.getElem?_cons_succ] at hget
      have hrec := ih j d0 hget hmatch
        (fun j2 d1 hj2 hg => hbefore (j2 + 1) d1 (by omega) (by simpa using hg))
      simp [Collection.update_one_docs, hd, hrec]

theorem lookup_map_setfield (d : Doc) (k k1 : String) (v : BsonValue) (h : k ≠ k1) :
    (d.map (fun p => if p.1 = k1 then (k1, v) else p)).lookup k = d.lookup k := by
  induction d with
  | nil => rfl
  | cons p tl ih =>
    obtain ⟨a, b⟩ := p
    rw [List.map_cons]
    by_cases ha : a = k1
    · subst ha
      rw [show (if ((a, b) : String × BsonValue).1 = a then (a, v) else (a, b))
          = (a, v) from by simp]
      have hka : (k == a) = false := by simp [h]
      simp [List.lookup, hka, ih]
    · rw [show (if ((a, b) : String × BsonValue).1 = k1 then (k1, v) else (a, b))
          = (a, b) from by simp [ha]]
      by_cases hka : (k == a) = true
      · simp [List.lookup, hka]
      · simp [List.lookup, hka, ih]

theorem lookup_map_setfield_self (d : Doc) (k : String) (v : BsonValue)
    (hs : (d.lookup k).isSome = true) :
    (d.map (fun p => if p.1 = k then (k, v) else p)).lookup k = some v := by
  induction d with
  | nil => simp [List.lookup] at hs
  | cons p tl ih =>
    obtain ⟨a, b⟩ := p
    rw [List.map_cons]
    by_cases hka : (k == a) = true
    · have ha : a = k := (eq_of_beq hka).symm
      subst ha
      rw [show (if ((a, b) : String × BsonValue).1 = a then (a, v) else (a, b))
          = (a, v) from by simp]
      simp [List.lookup]
    · have ha : a ≠ k := fun hh => by simp [hh] at hka
      rw [show (if ((a, b) : String × BsonValue).1 = k then (k, v) else (a, b))
          = (a, b) from by simp [ha]]
      simp only [List.lookup, hka] at hs
      simp [List.lookup, hka, ih hs]

theorem applySetField_lookup_ne (d : Doc) (k k1 : String) (v : BsonValue) (h : k ≠ k1) :
    (Collection.applySetField d k1 v).lookup k = d.lookup k := by
  unfold Collection.applySetField
  split
  · exact lookup_map_setfield d k k1 v h
  · rw [lookup_append]
    have : ([(k1, v)] : Doc).lookup k = none := by
      have : (k == k1) = false := by simp [h]
      simp [List.lookup, this]
    simp [this]

theorem applySetField_lookup_self (d : Doc) (k : String) (v : BsonValue) :
    (Collection.applySetField d k v).lookup k = some v := by
  unfold Collection.applySetField
  split
  · rename_i hs
    exact lookup_map_setfield_self d k v hs
  · rename_i hs
    rw [lookup_append]
    have hd : d.lookup k = none := by
      cases h : d.lookup k
      · rfl
      · rw [h] at hs; simp at hs
    simp [hd, List.lookup]

theorem applySet_cons (k1 : String) (v1 : BsonValue) (tl : Doc) (d : Doc) :
    Collection.applySet ((k1, v1) :: tl) d
      = Collection.applySet tl (Collection.applySetField d k1 v1) := by
  simp [Collection.applySet]

theorem applySet_lookup_none (u : Doc) : ∀ (d : Doc) (k : String), u.lookup k = none →
    (Collection.applySet u d).lookup k = d.lookup k := by
  induction u with
  | nil => intro d k _; rfl
  | cons p tl ih =>
    intro d k h
    obtain ⟨k1, v1⟩ := p
    have hk : (k == k1) = false := by
      cases hbe : (k == k1)
      · rfl
      · simp [List.lookup, hbe] at h
    have htl : tl.lookup k = none := by
      simpa [List.lookup, hk] using h
    have hne : k ≠ k1 := by simpa using hk
    rw [applySet_cons, ih _ k htl, applySetField_lookup_ne d k k1 v1 hne]

theorem applySet_lookup_mem (u : Doc) : ∀ (d : Doc) (k : String) (v : BsonValue),
    (u.map Prod.fst).Nodup → (k, v) ∈ u →
    (Collection.applySet u d).lookup k = some v := by
  induction u with
  | nil => intro _ _ _ _ h; simp at h
  | cons p tl ih =>
    intro d k v hnodup hmem
    obtain ⟨k1, v1⟩ := p
    rw [applySet_cons]
    rw [List.map_cons, List.nodup_cons] at hnodup
    rcases List.mem_cons.mp hmem with heq | htl
    · have h1 : k = k1 := congrArg Prod.fst heq
      have h2 : v = v1 := congrArg Prod.snd heq
      subst h1
      subst h2
      rw [applySet_lookup_none tl _ k (lookup_eq_none_keys tl k hnodup.1),
        applySetField_lookup_self]
    · exact ih _ k v hnodup.2 htl

theorem qmatches_id_eq (d : Doc) (x : BsonValue) :
    qmatches [("_id", Cond.eqv x)] d = (d.lookup "_id" == some x) := by
  simp [qmatches, condHolds]

theorem find_one_fresh (st : MongoState) (values : Doc) (hwf : st.wf)
    (hid : values.lookup "_id" = none) :
    Collection.find_one [("_id", Cond.eqv (BsonValue.oid st.nextId))]
      ⟨st.docs ++ [values ++ [("_id", BsonValue.oid st.nextId)]], st.nextId + 1⟩
      = some (values ++ [("_id", BsonValue.oid st.nextId)]) := by
  unfold Collection.find_one
  rw [List.find?_append]
  have h1 : st.docs.find? (qmatches [("_id", Cond.eqv (BsonValue.oid st.nextId))]) = none := by
    rw [List.find?_eq_none]
    intro d hd
    rw [qmatches_id_eq]
    cases hv : d.lookup "_id" with
    | none => simp
    | some w =>
      cases w with
      | oid n =>
        have := hwf d hd n hv
        simp only [beq_iff_eq, Option.some.injEq]
        intro heq
        injection heq with h2
        omega
      | str s => simp
      | int n2 => simp
      | bool b => simp
      | null => simp
  rw [h1]
  have h2 : (values ++ [("_id", BsonValue.oid st.nextId)]).lookup "_id"
      = some (BsonValue.oid st.nextId) := by
    rw [lookup_append, hid]
    simp [List.lookup]
  simp [List.find?, qmatches_id_eq, h2]

theorem stringifyId_stringifyId (d : Doc) : stringifyId (stringifyId d) = stringifyId d := by
  unfold stringifyId
  rw [List.map_map]
  congr 1
  funext p
  obtain ⟨a, b⟩ := p
  by_cases ha : a = "_id" <;> simp [Function.comp, ha, pyStr]

theorem stringifyId_lookup (d : Doc) (v : BsonValue) (h : d.lookup "_id" = some v) :
    (stringifyId d).lookup "_id" = some (BsonValue.str (pyStr v)) := by
  induction d with
  | nil => simp [List.lookup] at h
  | cons p tl ih =>
    obtain ⟨a, b⟩ := p
    by_cases hka : ("_id" == a) = true
    · have ha : a = "_id" := (eq_of_beq hka).symm
      subst ha
      simp only [List.lookup, hka] at h
      injection h with h2
      subst h2
      simp [stringifyId, List.lookup]
    · have ha : a ≠ "_id" := fun hh => by simp [hh] at hka
      simp only [List.lookup, hka] at h
      have := ih h
      simp only [stringifyId, List.map_cons, if_neg ha] at this ⊢
      simpa [List.lookup, hka] using this

theorem select_many_all (q : Query) (st : MongoState) :
    MongoDBCRUDRepository.select_many q none none st = st.docs.filter (qmatches q) := by
  simp [MongoDBCRUDRepository.select_many, Collection.find]

/-- A skipped batch item changes neither the count nor the store. -/
theorem updateManyStep_skip (acc : Nat × MongoState) (item : MongoDBCRUDRepository.BatchItem)
    (hc : ¬(MongoDBCRUDRepository.truthyQuery item.query
        && MongoDBCRUDRepository.truthyPatch item.update) = true) :
    MongoDBCRUDRepository.updateManyStep acc item = acc := by
  unfold MongoDBCRUDRepository.updateManyStep
  rw [if_neg hc]

/-- An applied batch item adds the modified count of the store update. -/
theorem updateManyStep_active (acc : Nat × MongoState) (q : Query) (u : Doc)
    (hq : q ≠ []) (hu : u ≠ []) :
    MongoDBCRUDRepository.updateManyStep acc ⟨some q, some u⟩
      = (acc.1 + (Collection.update_many q u acc.2).1, (Collection.update_many q u acc.2).2) := by
  unfold MongoDBCRUDRepository.updateManyStep
  rw [if_pos (by simp [MongoDBCRUDRepository.truthyQuery,
    MongoDBCRUDRepository.truthyPatch, hq, hu])]
  simp

/-- One loop iteration is additive in the accumulated count. -/
theorem updateManyStep_shift (n : Nat) (st : MongoState)
    (item : MongoDBCRUDRepository.BatchItem) :
    MongoDBCRUDRepository.updateManyStep (n, st) item
      = (n + (MongoDBCRUDRepository.updateManyStep (0, st) item).1,
         (MongoDBCRUDRepository.updateManyStep (0, st) item).2) := by
  unfold MongoDBCRUDRepository.updateManyStep
  by_cases hc : (MongoDBCRUDRepository.truthyQuery item.query
      && MongoDBCRUDRepository.truthyPatch item.update) = true
  · rw [if_pos hc, if_pos hc]
    simp
  · rw [if_neg hc, if_neg hc]
    simp

/-- The accumulated count in the `update_many` fold shifts out. -/
theorem foldl_update_shift : ∀ (data : List MongoDBCRUDRepository.BatchItem)
    (n : Nat) (st : MongoState),
    data.foldl MongoDBCRUDRepository.updateManyStep (n, st)
    = (n + (data.foldl MongoDBCRUDRepository.updateManyStep (0, st)).1,
       (data.foldl MongoDBCRUDRepository.updateManyStep (0, st)).2) := by
  intro data
  induction data with
  | nil => intro n st; simp
  | cons item tl ih =>
    intro n st
    rw [List.foldl_cons, List.foldl_cons, updateManyStep_shift]
    rcases h : MongoDBCRUDRepository.updateManyStep (0, st) item with ⟨m, s2⟩
    rw [ih (n + m) s2, ih m s2]
    simp only [Prod.mk.injEq]
    exact ⟨by omega, trivial⟩

/-! ## The claims -/

/-- C1: `update(query, patch)` applies the patch as a `$set` partial
field-merge to the first document matching the query (fields outside
the patch survive, patched fields take the values of the patch, non-matching
documents are untouched), and returns the result of re-running `select`
with the same original query on the post-update state — not a re-read
by the identifier of the updated document: at the concrete instance below
the original-query re-read returns nothing while a by-id re-read still
finds the document. -/
theorem update_rereads_original_query (q : Query) (u : Doc) (st : MongoState) :
    ((MongoDBCRUDRepository.update q u st).1
      = MongoDBCRUDRepository.select q (MongoDBCRUDRepository.update q u st).2)
  ∧ ((∀ d ∈ st.docs, qmatches q d = false) →
      (MongoDBCRUDRepository.update q u st).2 = st)
  ∧ (∀ i d0, st.docs[i]? = some d0 → qmatches q d0 = true →
      (∀ j d1, j < i → st.docs[j]? = some d1 → qmatches q d1 = false) →
      (MongoDBCRUDRepository.update q u st).2.docs
        = st.docs.set i (Collection.applySet u d0))
  ∧ (∀ (d : Doc) (k : String), u.lookup k = none →
      (Collection.applySet u d).lookup k = d.lookup k)
  ∧ ((u.map Prod.fst).Nodup → ∀ (d : Doc) (k : String) (v : BsonValue), (k, v) ∈ u →
      (Collection.applySet u d).lookup k = some v)
  ∧ ((MongoDBCRUDRepository.update [("a", Cond.eqv (BsonValue.int 0))]
        [("a", BsonValue.int 1)]
        ⟨[[("_id", BsonValue.oid 1), ("a", BsonValue.int 0)]], 2⟩).1 = none
      ∧ (MongoDBCRUDRepository.select [("_id", Cond.eqv (BsonValue.oid 1))]
          (MongoDBCRUDRepository.update [("a", Cond.eqv (BsonValue.int 0))]
            [("a", BsonValue.int 1)]
            ⟨[[("_id", BsonValue.oid 1), ("a", BsonValue.int 0)]], 2⟩).2).isSome = true) := by
  refine ⟨?_, ?_, ?_, ?_, ?_, by decide⟩
  · simp [MongoDBCRUDRepository.update]
  · intro h
    simp [MongoDBCRUDRepository.update, Collection.update_one,
      update_one_docs_no_match q u st.docs h]
  · intro i d0 hget hmatch hbefore
    simp [MongoDBCRUDRepository.update, Collection.update_one,
      update_one_docs_first q u st.docs i d0 hget hmatch hbefore]
  · exact fun d k h => applySet_lookup_none u d k h
  · exact fun hnd d k v hmem => applySet_lookup_mem u d k v hnd hmem

/-- Witness for C1 at concrete inputs: an update against an empty store
leaves it unchanged, and a `$set` patch leaves a field outside the
patch intact. -/
theorem update_rereads_original_query_witness :
    (MongoDBCRUDRepository.update [("x", Cond.eqv (BsonValue.int 0))]
        [("y", BsonValue.int 2)] ⟨[], 0⟩).2 = ⟨[], 0⟩
  ∧ (Collection.applySet [("y", BsonValue.int 2)] [("z", BsonValue.int 3)]).lookup "z"
      = some (BsonValue.int 3) :=
  ⟨(update_rereads_original_query [("x", Cond.eqv (BsonValue.int 0))]
      [("y", BsonValue.int 2)] ⟨[], 0⟩).2.1 (by simp),
   (update_rereads_original_query [("x", Cond.eqv (BsonValue.int 0))]
      [("y", BsonValue.int 2)] ⟨[], 0⟩).2.2.2.1 [("z", BsonValue.int 3)] "z" (by decide)⟩

/-- C2 (counterexample): the claim reads `update_many` as applying one
merge-patch per batch item, skipping only items *missing* their query
or patch.  The `if query and update:` line uses Python truthiness, so
an item whose query is present but empty (`{}`, the match-everything
query) is also skipped: on a one-document store, the batch holding that
single item returns 0 and leaves the store untouched, while the reading
of the claim applies the patch to the matched document and yields 1. -/
theorem update_many_empty_query_counterexample :
    (MongoDBCRUDRepository.update_many
        [⟨some [], some [("b", BsonValue.int 1)]⟩] ⟨[[("a", BsonValue.int 0)]], 5⟩).1 = 0
  ∧ (MongoDBCRUDRepository.updateManySpec
        [⟨some [], some [("b", BsonValue.int 1)]⟩] ⟨[[("a", BsonValue.int 0)]], 5⟩).1 = 1
  ∧ (MongoDBCRUDRepository.update_many
        [⟨some [], some [("b", BsonValue.int 1)]⟩] ⟨[[("a", BsonValue.int 0)]], 5⟩).2
      = ⟨[[("a", BsonValue.int 0)]], 5⟩ := by
  decide

/-- C2 (amended): `update_many` returns the sum, over the batch items
whose query and patch are both present *and non-empty*, of the number
of documents that the merge-patch of the item actually modified, each item
applied in order on the state the previous items left; items missing
their query or patch — or carrying an empty one — contribute nothing
and cause no store operation. -/
theorem update_many_counts (st : MongoState) :
    (∀ item data, (MongoDBCRUDRepository.truthyQuery item.query
        && MongoDBCRUDRepository.truthyPatch item.update) = false →
      MongoDBCRUDRepository.update_many (item :: data) st
        = MongoDBCRUDRepository.update_many data st)
  ∧ (∀ q u data, q ≠ [] → u ≠ [] →
      MongoDBCRUDRepository.update_many (⟨some q, some u⟩ :: data) st
        = ((Collection.update_many q u st).1
            + (MongoDBCRUDRepository.update_many data (Collection.update_many q u st).2).1,
           (MongoDBCRUDRepository.update_many data (Collection.update_many q u st).2).2))
  ∧ (∀ q u, (Collection.update_many q u st).1
      = (st.docs.filter (fun d => qmatches q d && (Collection.applySet u d != d))).length) := by
  refine ⟨?_, ?_, ?_⟩
  · intro item data hc
    simp only [MongoDBCRUDRepository.update_many, List.foldl_cons]
    rw [updateManyStep_skip _ _ (by simp [hc])]
  · intro q u data hq hu
    simp only [MongoDBCRUDRepository.update_many, List.foldl_cons]
    rw [updateManyStep_active _ q u hq hu]
    simp only [Nat.zero_add]
    exact foldl_update_shift data _ _
  · intro q u
    simp [Collection.update_many, List.countP_eq_length_filter]

/-- Witness for the amended C2 claim at concrete inputs: a batch of one
empty-query item and one real item counts only the real item. -/
theorem update_many_counts_witness :
    MongoDBCRUDRepository.update_many
        [(⟨some [("a", Cond.eqv (BsonValue.int 0))], some [("b", BsonValue.int 1)]⟩ :
            MongoDBCRUDRepository.BatchItem)]
        ⟨[[("a", BsonValue.int 0)]], 5⟩
      = ((Collection.update_many [("a", Cond.eqv (BsonValue.int 0))] [("b", BsonValue.int 1)]
            ⟨[[("a", BsonValue.int 0)]], 5⟩).1
          + (MongoDBCRUDRepository.update_many []
              (Collection.update_many [("a", Cond.eqv (BsonValue.int 0))] [("b", BsonValue.int 1)]
                ⟨[[("a", BsonValue.int 0)]], 5⟩).2).1,
         (MongoDBCRUDRepository.update_many []
            (Collection.update_many [("a", Cond.eqv (BsonValue.int 0))] [("b", BsonValue.int 1)]
              ⟨[[("a", BsonValue.int 0)]], 5⟩).2).2) :=
  (update_many_counts ⟨[[("a", BsonValue.int 0)]], 5⟩).2.1
    [("a", Cond.eqv (BsonValue.int 0))] [("b", BsonValue.int 1)] []
    (by decide) (by decide)

/-- C3: `delete(query)` returns exactly the documents matching the
query in the pre-deletion state (the read-phase snapshot), then deletes
every match; under the interleaving where another caller inserts a
document between the read phase and the delete phase, the returned
sequence is still the pre-read snapshot, so any document not in the
pre-state — in particular the late insert — does not appear in it. -/
theorem delete_returns_pre_snapshot (q : Query) (st : MongoState) (values : Doc) :
    ((MongoDBCRUDRepository.delete q st).1 = st.docs.filter (qmatches q))
  ∧ ((MongoDBCRUDRepository.delete q st).2.docs = st.docs.filter (fun d => !qmatches q d))
  ∧ ((MongoDBCRUDRepository.deleteInterleaved q values st).1
      = st.docs.filter (qmatches q))
  ∧ (∀ d : Doc, d ∉ st.docs →
      d ∉ (MongoDBCRUDRepository.deleteInterleaved q values st).1) := by
  refine ⟨?_, ?_, ?_, ?_⟩
  · simp [MongoDBCRUDRepository.delete, select_many_all]
  · simp [MongoDBCRUDRepository.delete, Collection.delete_many]
  · simp [MongoDBCRUDRepository.deleteInterleaved, select_many_all]
  · intro d hd hmem
    rw [show (MongoDBCRUDRepository.deleteInterleaved q values st).1
        = st.docs.filter (qmatches q) from by
          simp [MongoDBCRUDRepository.deleteInterleaved, select_many_all]] at hmem
    exact hd (List.mem_filter.mp hmem).1

/-- Witness for C3 at concrete inputs: a document inserted between the
phases is absent from the returned snapshot of an empty store. -/
theorem delete_returns_pre_snapshot_witness :
    ([("y", BsonValue.int 1)] : Doc)
      ∉ (MongoDBCRUDRepository.deleteInterleaved [] [("y", BsonValue.int 1)] ⟨[], 0⟩).1 :=
  (delete_returns_pre_snapshot [] ⟨[], 0⟩ [("y", BsonValue.int 1)]).2.2.2
    [("y", BsonValue.int 1)] (by simp)

/-- C4: on a well-formed store, `create(values)` (with no caller-supplied
identifier, so the insert reports a fresh truthy ObjectId) appends the
document and returns it re-read from the store with its identifier
converted to a string; when the insert reports a falsy (no) assigned
identifier — only possible for a caller-supplied falsy `_id` — it
returns null, the insert having still happened. -/
theorem create_returns_fresh_document (values : Doc) (st : MongoState)
    (hwf : st.wf) (hid : values.lookup "_id" = none) :
    (MongoDBCRUDRepository.create values st
      = .ok (some (stringifyId (values ++ [("_id", BsonValue.oid st.nextId)])),
             ⟨st.docs ++ [values ++ [("_id", BsonValue.oid st.nextId)]], st.nextId + 1⟩))
  ∧ ((stringifyId (values ++ [("_id", BsonValue.oid st.nextId)])).lookup "_id"
      = some (BsonValue.str (pyStr (BsonValue.oid st.nextId))))
  ∧ (∀ (values2 : Doc) (st2 : MongoState) (v : BsonValue),
      values2.lookup "_id" = some v → truthy v = false →
      MongoDBCRUDRepository.create values2 st2
        = .ok (none, ⟨st2.docs ++ [values2], st2.nextId + 1⟩)) := by
  have hlook : (values ++ [("_id", BsonValue.oid st.nextId)]).lookup "_id"
      = some (BsonValue.oid st.nextId) := by
    rw [lookup_append, hid]
    simp [List.lookup]
  refine ⟨?_, stringifyId_lookup _ _ hlook, ?_⟩
  · have hins : Collection.insert_one values st
        = (⟨BsonValue.oid st.nextId⟩,
           ⟨st.docs ++ [values ++ [("_id", BsonValue.oid st.nextId)]], st.nextId + 1⟩) := by
      unfold Collection.insert_one
      rw [hid]
    have hfind := find_one_fresh st values hwf hid
    have hne : (values ++ [("_id", BsonValue.oid st.nextId)]).isEmpty = false := by simp
    simp only [MongoDBCRUDRepository.create, hins, MongoDBCRUDRepository.select, hfind, hne,
      truthy, if_true, Bool.false_eq_true, if_false, stringifyId_stringifyId]
  · intro values2 st2 v hv hfalsy
    have hins2 : Collection.insert_one values2 st2
        = (⟨v⟩, ⟨st2.docs ++ [values2], st2.nextId + 1⟩) := by
      unfold Collection.insert_one
      rw [hv]
    simp only [MongoDBCRUDRepository.create, hins2, hfalsy, Bool.false_eq_true, if_false]

/-- Witness for C4 at concrete inputs: creating into an empty store. -/
theorem create_returns_fresh_document_witness :
    MongoDBCRUDRepository.create [("a", BsonValue.int 1)] ⟨[], 0⟩
      = .ok (some (stringifyId ([("a", BsonValue.int 1)] ++ [("_id", BsonValue.oid 0)])),
             ⟨[[("a", BsonValue.int 1)] ++ [("_id", BsonValue.oid 0)]], 1⟩) :=
  (create_returns_fresh_document [("a", BsonValue.int 1)] ⟨[], 0⟩
    (by intro d hd; simp at hd) (by decide)).1

/-- C9: when the insert reports an assigned identifier but the immediate
re-read of that identifier finds no document (for example, a concurrent
delete between the insert and the re-read), `create` subscripts the
`None` re-read result unguarded and raises a type error, rather than
returning null. -/
theorem create_raises_on_vanished_reread (values : Doc) (mid : MongoState → MongoState)
    (st : MongoState) (hid : values.lookup "_id" = none)
    (hgone : Collection.find_one [("_id", Cond.eqv (BsonValue.oid st.nextId))]
        (mid (Collection.insert_one values st).2) = none) :
    MongoDBCRUDRepository.createInterleaved values mid st
      = .error MongoDBCRUDRepository.PyError.typeError := by
  have hins : (Collection.insert_one values st).1.inserted_id = BsonValue.oid st.nextId := by
    unfold Collection.insert_one
    rw [hid]
  simp only [MongoDBCRUDRepository.createInterleaved, hins, truthy, if_true,
    MongoDBCRUDRepository.select, hgone]

/-- Witness for C9 at concrete inputs: a concurrent delete-all between
the insert and the re-read makes `create` raise. -/
theorem create_raises_on_vanished_reread_witness :
    MongoDBCRUDRepository.createInterleaved [("a", BsonValue.int 1)]
        (fun s => ⟨[], s.nextId⟩) ⟨[], 0⟩
      = .error MongoDBCRUDRepository.PyError.typeError :=
  create_raises_on_vanished_reread [("a", BsonValue.int 1)] (fun s => ⟨[], s.nextId⟩) ⟨[], 0⟩
    (by decide) (by decide)

/-- C10: identifier normalization is not uniform across read paths:
`select` returns a stored document with its `_id` stringified, while
`select_many` returns stored documents unchanged — and `delete` and
`create_many` return their results through `select_many` — so those
paths keep the identifier in store-native form.  The concrete instance
reads the same stored document both ways. -/
theorem id_normalization_asymmetry :
    (∀ (q : Query) (st : MongoState) (d : Doc),
      MongoDBCRUDRepository.select q st = some d →
      ∃ d0, d0 ∈ st.docs ∧ d = stringifyId d0)
  ∧ (∀ (q : Query) (off lim : Option Nat) (st : MongoState) (d : Doc),
      d ∈ MongoDBCRUDRepository.select_many q off lim st → d ∈ st.docs)
  ∧ (∀ (q : Query) (st : MongoState), (MongoDBCRUDRepository.delete q st).1
      = MongoDBCRUDRepository.select_many q none none st)
  ∧ (∀ (data : List Doc) (st : MongoState), (MongoDBCRUDRepository.create_many data st).1
      = MongoDBCRUDRepository.select_many
          [("_id", Cond.inSet (MongoDBCRUDRepository.insert_many data st).1)] none none
          (MongoDBCRUDRepository.insert_many data st).2)
  ∧ (MongoDBCRUDRepository.select_many [] none none
        ⟨[[("_id", BsonValue.oid 7), ("a", BsonValue.int 1)]], 8⟩
      = [[("_id", BsonValue.oid 7), ("a", BsonValue.int 1)]])
  ∧ (MongoDBCRUDRepository.select []
        ⟨[[("_id", BsonValue.oid 7), ("a", BsonValue.int 1)]], 8⟩
      = some [("_id", BsonValue.str "7"), ("a", BsonValue.int 1)]) := by
  refine ⟨?_, ?_, fun q st => rfl, fun data st => rfl, by decide, by decide⟩
  · intro q st d hsel
    unfold MongoDBCRUDRepository.select at hsel
    cases hf : Collection.find_one q st with
    | none => rw [hf] at hsel; simp at hsel
    | some d0 =>
      rw [hf] at hsel
      by_cases he : d0.isEmpty
      · simp [he] at hsel
      · simp only [he, Bool.false_eq_true, if_false, Option.some.injEq] at hsel
        exact ⟨d0, List.mem_of_find?_eq_some hf, hsel.symm⟩
  · intro q off lim st d hd
    unfold MongoDBCRUDRepository.select_many Collection.find at hd
    have hmem : d ∈ st.docs.filter (qmatches q) := by
      rcases off with _ | o <;> rcases lim with _ | l <;> simp only [] at hd
      · exact hd
      · exact List.mem_of_mem_take hd
      · exact List.mem_of_mem_drop hd
      · exact List.mem_of_mem_drop (List.mem_of_mem_take hd)
    exact (List.mem_filter.mp hmem).1

/-- Witness for C10 at concrete inputs: the stringified document that
`select` returns comes from a stored document. -/
theorem id_normalization_asymmetry_witness :
    ∃ d0, d0 ∈ (⟨[[("_id", BsonValue.oid 7), ("a", BsonValue.int 1)]], 8⟩ : MongoState).docs
      ∧ ([("_id", BsonValue.str "7"), ("a", BsonValue.int 1)] : Doc) = stringifyId d0 :=
  id_normalization_asymmetry.1 [] ⟨[[("_id", BsonValue.oid 7), ("a", BsonValue.int 1)]], 8⟩
    [("_id", BsonValue.str "7"), ("a", BsonValue.int 1)] (by decide)

/-- C6: every cache operation invoked on a connected client converts a
store-level error during the operation into a safe default instead of
propagating it: `get` returns null, `set`, `delete` and `expire` return
false, and `get_many` returns an empty mapping. -/
theorem cache_errors_become_defaults (store : RedisState) (e : StoreErr) (key : String)
    (value : Json) (ttl : Option Nat) (ttl2 : Nat) (keys : List String) :
    RedisCache.get store (some e) key = none
  ∧ (RedisCache.set store (some e) key value ttl).1 = false
  ∧ (RedisCache.delete store (some e) key).1 = false
  ∧ RedisCache.expire store (some e) key ttl2 = false
  ∧ RedisCache.get_many store (some e) keys = [] := by
  refine ⟨rfl, rfl, rfl, rfl, ?_⟩
  unfold RedisCache.get_many
  by_cases h : keys.isEmpty <;> simp [h]

/-- The `get_many` collection loop succeeds — and keeps exactly the
present, deserializable entries — when every present value
deserializes. -/
theorem collectMany_ok (pairs : List (String × Option (List Char)))
    (hok : ∀ k b, (k, some b) ∈ pairs → (OrjsonSerializer.loads b).isSome = true) :
    RedisCache.collectMany pairs
      = some (pairs.filterMap (fun p => match p.2 with
          | none => none
          | some b => (OrjsonSerializer.loads b).map (fun v => (p.1, v)))) := by
  induction pairs with
  | nil => rfl
  | cons p tl ih =>
    obtain ⟨k, ob⟩ := p
    cases ob with
    | none =>
      simp only [RedisCache.collectMany]
      rw [ih (fun k2 b2 h2 => hok k2 b2 (by simp [h2]))]
      simp [List.filterMap_cons]
    | some b =>
      have hs := hok k b (by simp)
      cases hl : OrjsonSerializer.loads b with
      | none => rw [hl] at hs; simp at hs
      | some v =>
        simp only [RedisCache.collectMany, hl]
        rw [ih (fun k2 b2 h2 => hok k2 b2 (by simp [h2]))]
        simp [List.filterMap_cons, hl]

/-- C8: provided every present value under a requested key deserializes
(which holds for everything written through `set`), `get_many(keys)`
returns a mapping containing an entry for exactly those requested keys
present in the cache, bound to their deserialized values; absent keys
are omitted rather than mapped to null. -/
theorem get_many_exact (store : RedisState) (keys : List String)
    (hok : ∀ k ∈ keys, ∀ b, store.lookup k = some b →
      (OrjsonSerializer.loads b).isSome = true) :
    (∀ k v, (k, v) ∈ RedisCache.get_many store none keys →
      k ∈ keys ∧ ∃ b, store.lookup k = some b ∧ OrjsonSerializer.loads b = some v)
  ∧ (∀ k ∈ keys, store.lookup k ≠ none →
      ∃ v, (k, v) ∈ RedisCache.get_many store none keys)
  ∧ (∀ k ∈ keys, store.lookup k = none →
      ∀ v, (k, v) ∉ RedisCache.get_many store none keys) := by
  have hres : RedisCache.get_many store none keys
      = keys.filterMap (fun k => match store.lookup k with
          | none => none
          | some b => (OrjsonSerializer.loads b).map (fun v => (k, v))) := by
    cases keys with
    | nil => rfl
    | cons k0 tl =>
      unfold RedisCache.get_many
      rw [if_neg (by simp)]
      rw [collectMany_ok _ (fun k2 b2 h2 => by
        obtain ⟨a, ha, hpair⟩ := List.mem_map.mp h2
        have h1 : a = k2 := congrArg Prod.fst hpair
        have h2b : store.lookup a = some b2 := congrArg Prod.snd hpair
        subst h1
        exact hok a ha b2 h2b)]
      rw [List.filterMap_map]
      rfl
  have part1 : ∀ k v, (k, v) ∈ RedisCache.get_many store none keys →
      k ∈ keys ∧ ∃ b, store.lookup k = some b ∧ OrjsonSerializer.loads b = some v := by
    intro k v h
    rw [hres] at h
    obtain ⟨a, ha, hfa⟩ := List.mem_filterMap.mp h
    cases hla : store.lookup a with
    | none => simp [hla] at hfa
    | some b =>
      simp only [hla] at hfa
      cases hlb : OrjsonSerializer.loads b with
      | none => simp [hlb] at hfa
      | some w =>
        simp [hlb, Prod.ext_iff] at hfa
        obtain ⟨hak, hwv⟩ := hfa
        subst hak
        subst hwv
        exact ⟨ha, b, hla, hlb⟩
  refine ⟨part1, ?_, ?_⟩
  · intro k hk hsome
    cases hla : store.lookup k with
    | none => exact absurd hla hsome
    | some b =>
      have hs := hok k hk b hla
      cases hlb : OrjsonSerializer.loads b with
      | none => rw [hlb] at hs; simp at hs
      | some v =>
        refine ⟨v, ?_⟩
        rw [hres]
        exact List.mem_filterMap.mpr ⟨k, hk, by simp [hla, hlb]⟩
  · intro k hk hnone v h
    obtain ⟨_, b, hb, _⟩ := part1 k v h
    rw [hnone] at hb
    exact Option.noConfusion hb

/-- Witness for C8 at concrete inputs: with only `"a"` stored, the
result holds an entry for `"a"` from the request `["a", "b"]`. -/
theorem get_many_exact_witness :
    ∃ v, ("a", v) ∈ RedisCache.get_many
      [("a", OrjsonSerializer.dumps (Json.int 5))] none ["a", "b"] :=
  (get_many_exact [("a", OrjsonSerializer.dumps (Json.int 5))] ["a", "b"]
    (by
      intro k hk b hb
      simp only [List.mem_cons, List.not_mem_nil, or_false] at hk
      rcases hk with rfl | rfl
      · simp only [List.lookup, show ("a" == "a") = true from rfl] at hb
        injection hb with hb2
        subst hb2
        rw [roundtrip_noDT (Json.int 5) (by simp [noDT])]
        rfl
      · simp [List.lookup] at hb)).2.1
    "a" (by simp) (by simp [List.lookup])

/-- C5 (counterexample): orjson accepts datetime values and serializes
them as their ISO-8601 text; such a value does not round-trip — it
deserializes back as a plain string, not as the original value. -/
theorem serializer_datetime_counterexample :
    OrjsonSerializer.loads (OrjsonSerializer.dumps
        (Json.datetime ("2020-01-01T00:00:00".toList)))
      ≠ some (Json.datetime ("2020-01-01T00:00:00".toList)) := by
  rw [loads_dumps_datetime]
  intro h
  injection h with h2
  exact Json.noConfusion h2

/-- C5 (amended): for every value the serializer accepts that has an
exact JSON representation — every datetime-free value of the model —
deserializing the serialized bytes yields the value back:
`loads (dumps v) = some v`. -/
theorem serializer_roundtrip (v : Json) (h : noDT v = true) :
    OrjsonSerializer.loads (OrjsonSerializer.dumps v) = some v :=
  roundtrip_noDT v h

/-- Witness for the amended C5 claim at a concrete nested value. -/
theorem serializer_roundtrip_witness :
    noDT (Json.obj [("k".toList, Json.arr [Json.int (-42), Json.null])]) = true
  ∧ OrjsonSerializer.loads (OrjsonSerializer.dumps
        (Json.obj [("k".toList, Json.arr [Json.int (-42), Json.null])]))
      = some (Json.obj [("k".toList, Json.arr [Json.int (-42), Json.null])]) :=
  ⟨by simp [noDT, noDTM, noDTL],
   serializer_roundtrip _ (by simp [noDT, noDTM, noDTL])⟩

/-- C7 (counterexample): the claim says unset and empty fields are
stripped from the input before insertion.  The code strips only
`None`-valued fields (`model_dump(exclude_none=True)`): a
default-constructed input has every string field unset (defaulted to
the empty string), yet the payload handed to the repository — and the
document inserted into the store — still carries those empty fields. -/
theorem service_create_keeps_empty_fields :
    (UserDTO.modelDumpExcludeNone {}).lookup "client_id" = some (BsonValue.str "")
  ∧ UserService.create {} ⟨[], 0⟩
      = .ok (some (stringifyId (UserDTO.modelDumpExcludeNone {} ++ [("_id", BsonValue.oid 0)])),
             ⟨[UserDTO.modelDumpExcludeNone {} ++ [("_id", BsonValue.oid 0)]], 1⟩)
  ∧ ("client_id", BsonValue.str "")
      ∈ UserDTO.modelDumpExcludeNone {} ++ [("_id", BsonValue.oid 0)] := by
  refine ⟨by decide, by rfl, by decide⟩

/-- C7 (amended): the pipeline hands the repository exactly
`model_dump(exclude_none=True)` of the input: fields whose value is
None are stripped; unset or empty string fields keep their defaults and
are included in what is inserted. -/
theorem service_create_strips_only_none (u : UserDTO) (st : MongoState) :
    ((UserDTO.modelDumpExcludeNone u).lookup "client_id" = some (BsonValue.str u.client_id))
  ∧ ((UserDTO.modelDumpExcludeNone u).lookup "crm_url" = some (BsonValue.str u.crm_url))
  ∧ ((UserDTO.modelDumpExcludeNone u).lookup "module_code"
      = some (BsonValue.str u.module_code))
  ∧ (u.active = none → (UserDTO.modelDumpExcludeNone u).lookup "active" = none)
  ∧ (∀ b, u.active = some b →
      (UserDTO.modelDumpExcludeNone u).lookup "active" = some (BsonValue.bool b))
  ∧ (u.freeze = none → (UserDTO.modelDumpExcludeNone u).lookup "freeze" = none)
  ∧ (∀ b, u.freeze = some b →
      (UserDTO.modelDumpExcludeNone u).lookup "freeze" = some (BsonValue.bool b))
  ∧ (UserService.create u st
      = MongoDBCRUDRepository.create (UserDTO.modelDumpExcludeNone u) st) := by
  have e1 : ("crm_url" == "client_id") = false := by decide
  have e2 : ("module_code" == "client_id") = false := by decide
  have e3 : ("module_code" == "crm_url") = false := by decide
  have e4 : ("module_code" == "crm_api_key") = false := by decide
  have e5 : ("module_code" == "module_name") = false := by decide
  have a1 : ("active" == "client_id") = false := by decide
  have a2 : ("active" == "crm_url") = false := by decide
  have a3 : ("active" == "crm_api_key") = false := by decide
  have a4 : ("active" == "module_name") = false := by decide
  have a5 : ("active" == "module_code") = false := by decide
  have f1 : ("freeze" == "client_id") = false := by decide
  have f2 : ("freeze" == "crm_url") = false := by decide
  have f3 : ("freeze" == "crm_api_key") = false := by decide
  have f4 : ("freeze" == "module_name") = false := by decide
  have f5 : ("freeze" == "module_code") = false := by decide
  have f6 : ("freeze" == "active") = false := by decide
  refine ⟨?_, ?_, ?_, ?_, ?_, ?_, ?_, rfl⟩
  · simp [UserDTO.modelDumpExcludeNone, List.lookup]
  · simp [UserDTO.modelDumpExcludeNone, List.lookup, e1]
  · simp [UserDTO.modelDumpExcludeNone, List.lookup, e2, e3, e4, e5]
  · intro h
    cases hf : u.freeze <;>
      simp [UserDTO.modelDumpExcludeNone, List.lookup, h, hf, a1, a2, a3, a4, a5]
  · intro b h
    cases hf : u.freeze <;>
      simp [UserDTO.modelDumpExcludeNone, List.lookup, h, hf, a1, a2, a3, a4, a5]
  · intro h
    cases ha : u.active <;>
      simp [UserDTO.modelDumpExcludeNone, List.lookup, h, ha, f1, f2, f3, f4, f5, f6]
  · intro b h
    cases ha : u.active <;>
      simp [UserDTO.modelDumpExcludeNone, List.lookup, h, ha, f1, f2, f3, f4, f5, f6]

/-- Witness for the amended C7 claim: a `None`-valued optional field is
stripped from the dumped payload. -/
theorem service_create_strips_only_none_witness :
    (UserDTO.modelDumpExcludeNone ⟨"c", "u", "k", "m", "o", none, some true⟩).lookup "active"
      = none :=
  (service_create_strips_only_none ⟨"c", "u", "k", "m", "o", none, some true⟩ ⟨[], 0⟩).2.2.2.1 rfl

end FastApiMongo
